import Mathlib

/-!
Verification of the statistical core of the quocmesh library
(`modules/aol/randomGenerator.h`, `modules/aol/probDistributionFunction.h`):
the Mersenne-twister based `aol::RandomGenerator` with its derived samplers
(uniform, normal, Poisson, `LnFac`), and the empirical probability
distribution machinery with its distance accessors and the inverse-CDF
sampler `PRNGForGivenDistr1D`.

Modelling conventions:
* machine `unsigned int` words are `Nat` values below `2^32`;
* `double` / `RealType` arithmetic is modelled exactly over `ℚ`; the
  transcendental library functions (`sqrt`, `log`, `exp`) the samplers call
  are abstract parameters of type `ℚ → ℚ`, so every theorem quantifying over
  them holds for whatever floating approximations the platform supplies;
* the raw word supply of a generator is an arbitrary stream `ws : Nat → Nat`
  together with a cursor; quantifying over all streams subsumes
  quantification over all reachable generator states;
* unbounded `do … while` rejection loops are modelled with explicit fuel,
  returning `none` when the fuel runs out; a C++ `throw` is an `Except.error`.
-/

namespace Aol

/-- Error kinds of the aol library, named after the C++ exception classes:
`exceptionMsg` models `aol::Exception` (the spec's InvalidArgument kind),
`unimplementedCode` models `aol::UnimplementedCodeException` (the spec's
UnsupportedOperation kind), and `preconditionViolation` is the spec's
PreconditionViolation kind. -/
inductive AolErr where
  | exceptionMsg : String → AolErr
  | unimplementedCode : String → AolErr
  | preconditionViolation : AolErr
deriving DecidableEq

/-- State of `aol::RandomGenerator`: seed, index into the word table, and
the 624-word table `_y` (each entry a 32-bit word). -/
structure RandomGenerator where
  seed : Nat
  index : Nat
  y : List Nat
deriving DecidableEq

/-- One step of the seeding recurrence filling `_y`: each word is a 32-bit
linear mix of its predecessor (classic Mersenne-twister initialization). -/
def initStep (prev : Nat) (i : Nat) : Nat :=
  (1812433253 * (Nat.xor prev (prev >>> 30)) + i) % 2 ^ 32

/-- Word table produced from a seed: `y 0 = seed`, `y i = initStep (y (i-1)) i`. -/
def initWordsAux (seed : Nat) : Nat → Nat
  | 0 => seed % 2 ^ 32
  | i + 1 => initStep (initWordsAux seed i) (i + 1)

/-- Modelled from the spec: the body of `RandomGenerator::initializeY` is not
under `src/` (only its declaration in `randomGenerator.h` is).  Spec §4.1:
"State initialization from a seed deterministically fills all 624 words via a
linear recurrence over the seed value"; §3: "Re-seeding replaces `seed` and
forces full regeneration".  We fill the 624-word table as a deterministic
function of the seed alone and leave the index at 624 (all words consumed),
which forces a full batch regeneration at the next draw. -/
def initializeY (g : RandomGenerator) : RandomGenerator :=
  { g with index := 624, y := (List.range 624).map (initWordsAux g.seed) }

/-- Constructor `RandomGenerator(seed)`: member initialization
`_seed(seed), _index(624), _y(624)` followed by `initializeY()`. -/
def mkRandomGenerator (seed : Nat) : RandomGenerator :=
  initializeY { seed := seed, index := 624, y := List.replicate 624 0 }

/-- Accessor `getSeed`. -/
def RandomGenerator.getSeed (g : RandomGenerator) : Nat :=
  g.seed

/-- `reSeed(newSeed)`: assigns `_seed = newSeed`, then calls `initializeY()`. -/
def reSeed (g : RandomGenerator) (newSeed : Nat) : RandomGenerator :=
  initializeY { g with seed := newSeed }

/-- The private copy constructor of `RandomGenerator` unconditionally throws
`aol::UnimplementedCodeException`. -/
def copyConstruct (_g : RandomGenerator) : Except AolErr RandomGenerator :=
  .error (.unimplementedCode "aol::RandomGenerator copy constructor not implemented yet")

/-- The private `operator=` of `RandomGenerator` unconditionally throws
`aol::UnimplementedCodeException`. -/
def assign (_target _source : RandomGenerator) : Except AolErr RandomGenerator :=
  .error (.unimplementedCode "aol::RandomGenerator::operator= not implemented yet")

/-- `rangeCheck(Value, Min, Max)`: whether `Value` lies in `[Min, Max)`,
computed as in the source as `(Value < Max) && (Value >= Min)`. -/
def rangeCheck {α : Type _} [LinearOrder α] (Value Min Max : α) : Bool :=
  decide (Value < Max) && decide (Value ≥ Min)

/-- One attempt of `rReal<RealType>()` reading the raw word stream `ws` at
cursor `i`: `moresig` is the word at `i`, `lesssig` the word at `i + 1`
divided by `denom = 0xFFFFFFFF + 1 = 2^32`, and the candidate value is
`(moresig + lesssig) / denom`. -/
def rRealAttempt (ws : Nat → Nat) (i : Nat) : ℚ :=
  ((ws i : ℚ) + (ws (i + 1) : ℚ) / 2 ^ 32) / 2 ^ 32

/-- The `do … while` loop of `rReal<RealType>()`: per attempt consume two
words and keep the candidate iff `rangeCheck(ret, 0, 1)`; fuel bounds the
number of attempts, `none` meaning the loop has not terminated within it.
Returns the value together with the advanced cursor. -/
def rReal01Loop (ws : Nat → Nat) : Nat → Nat → Option (ℚ × Nat)
  | 0, _ => none
  | fuel + 1, i =>
    if rangeCheck (rRealAttempt ws i) 0 1 then some (rRealAttempt ws i, i + 2)
    else rReal01Loop ws fuel (i + 2)

/-- `rReal<RealType>(max)`: draw `rReal<RealType>()`, scale by `max`, redraw
while `rangeCheck(ret, 0, max)` fails. -/
def rRealMaxLoop (ws : Nat → Nat) (max : ℚ) : Nat → Nat → Option (ℚ × Nat)
  | 0, _ => none
  | fuel + 1, i =>
    match rReal01Loop ws (fuel + 1) i with
    | none => none
    | some (u, j) =>
      if rangeCheck (max * u) 0 max then some (max * u, j) else rRealMaxLoop ws max fuel j

/-- `rReal<RealType>(min, max)`: draw `rReal<RealType>()`, map it through
`min + u * (max - min)`, redraw while `rangeCheck(ret, min, max)` fails. -/
def rRealMinMaxLoop (ws : Nat → Nat) (min max : ℚ) : Nat → Nat → Option (ℚ × Nat)
  | 0, _ => none
  | fuel + 1, i =>
    match rReal01Loop ws (fuel + 1) i with
    | none => none
    | some (u, j) =>
      if rangeCheck (min + u * (max - min)) min max then some (min + u * (max - min), j)
      else rRealMinMaxLoop ws min max fuel j

/-- `static_cast<int>` of a `double`: truncation toward zero. -/
def ratTrunc (q : ℚ) : Int :=
  q.num.tdiv (q.den : Int)

/-- `rInt(max)`: truncate `rReal<double>(max)` to `int`, redraw while
`rangeCheck(ret, 0, max)` fails. -/
def rIntMaxLoop (ws : Nat → Nat) (max : Int) : Nat → Nat → Option (Int × Nat)
  | 0, _ => none
  | fuel + 1, i =>
    match rRealMaxLoop ws (max : ℚ) (fuel + 1) i with
    | none => none
    | some (u, j) =>
      if rangeCheck (ratTrunc u) 0 max then some (ratTrunc u, j) else rIntMaxLoop ws max fuel j

/-- `rInt(min, max)`: truncate `rReal<double>(min, max)` to `int`, redraw
while `rangeCheck(ret, min, max)` fails. -/
def rIntMinMaxLoop (ws : Nat → Nat) (min max : Int) : Nat → Nat → Option (Int × Nat)
  | 0, _ => none
  | fuel + 1, i =>
    match rRealMinMaxLoop ws (min : ℚ) (max : ℚ) (fuel + 1) i with
    | none => none
    | some (u, j) =>
      if rangeCheck (ratTrunc u) min max then some (ratTrunc u, j)
      else rIntMinMaxLoop ws min max fuel j

/-- `rUnsignedInt(max)`: truncate `rReal<double>(max)` to `unsigned int`,
redraw while `rangeCheck(ret, 0u, max)` fails. -/
def rUnsignedIntMaxLoop (ws : Nat → Nat) (max : Nat) : Nat → Nat → Option (Nat × Nat)
  | 0, _ => none
  | fuel + 1, i =>
    match rRealMaxLoop ws (max : ℚ) (fuel + 1) i with
    | none => none
    | some (u, j) =>
      if rangeCheck (ratTrunc u).toNat 0 max then some ((ratTrunc u).toNat, j)
      else rUnsignedIntMaxLoop ws max fuel j

/-- `rUnsignedInt(min, max)`: truncate `rReal<double>(min, max)` to
`unsigned int`, redraw while `rangeCheck(ret, min, max)` fails. -/
def rUnsignedIntMinMaxLoop (ws : Nat → Nat) (min max : Nat) : Nat → Nat → Option (Nat × Nat)
  | 0, _ => none
  | fuel + 1, i =>
    match rRealMinMaxLoop ws (min : ℚ) (max : ℚ) (fuel + 1) i with
    | none => none
    | some (u, j) =>
      if rangeCheck (ratTrunc u).toNat min max then some ((ratTrunc u).toNat, j)
      else rUnsignedIntMinMaxLoop ws min max fuel j

theorem rangeCheck_iff {α : Type _} [LinearOrder α] (v lo hi : α) :
    rangeCheck v lo hi = true ↔ lo ≤ v ∧ v < hi := by
  simp [rangeCheck, and_comm]

theorem rRealAttempt_nonneg (ws : Nat → Nat) (i : Nat) : 0 ≤ rRealAttempt ws i := by
  have h1 : (0 : ℚ) ≤ (ws i : ℚ) := Nat.cast_nonneg _
  have h2 : (0 : ℚ) ≤ (ws (i + 1) : ℚ) := Nat.cast_nonneg _
  unfold rRealAttempt
  positivity

theorem rRealAttempt_lt_one (ws : Nat → Nat) (h : ∀ j, ws j < 2 ^ 32) (i : Nat) :
    rRealAttempt ws i < 1 := by
  unfold rRealAttempt
  rw [div_lt_one (by positivity)]
  have h1 : (ws i : ℚ) + 1 ≤ 2 ^ 32 := by
    exact_mod_cast Nat.succ_le_of_lt (h i)
  have h2 : (ws (i + 1) : ℚ) / 2 ^ 32 < 1 := by
    rw [div_lt_one (by positivity)]
    exact_mod_cast h (i + 1)
  linarith

theorem rReal01Loop_mem (ws : Nat → Nat) :
    ∀ fuel i v j, rReal01Loop ws fuel i = some (v, j) → 0 ≤ v ∧ v < 1 := by
  intro fuel
  induction fuel with
  | zero => intro i v j hc; simp [rReal01Loop] at hc
  | succ f ih =>
    intro i v j hc
    rw [rReal01Loop] at hc
    split at hc
    · rename_i hr
      obtain ⟨rfl, rfl⟩ := Prod.mk.injEq .. ▸ Option.some.inj hc
      exact (rangeCheck_iff _ _ _).mp hr
    · exact ih _ _ _ hc

theorem rRealMaxLoop_mem (ws : Nat → Nat) (max : ℚ) :
    ∀ fuel i v j, rRealMaxLoop ws max fuel i = some (v, j) → 0 ≤ v ∧ v < max := by
  intro fuel
  induction fuel with
  | zero => intro i v j hc; simp [rRealMaxLoop] at hc
  | succ f ih =>
    intro i v j hc
    rw [rRealMaxLoop] at hc
    rcases hu : rReal01Loop ws (f + 1) i with _ | ⟨u, k⟩ <;> rw [hu] at hc <;> dsimp only at hc
    · exact absurd hc (by simp)
    · split at hc
      · rename_i hr
        obtain ⟨rfl, rfl⟩ := Prod.mk.injEq .. ▸ Option.some.inj hc
        exact (rangeCheck_iff _ _ _).mp hr
      · exact ih _ _ _ hc

theorem rRealMinMaxLoop_mem (ws : Nat → Nat) (min max : ℚ) :
    ∀ fuel i v j, rRealMinMaxLoop ws min max fuel i = some (v, j) → min ≤ v ∧ v < max := by
  intro fuel
  induction fuel with
  | zero => intro i v j hc; simp [rRealMinMaxLoop] at hc
  | succ f ih =>
    intro i v j hc
    rw [rRealMinMaxLoop] at hc
    rcases hu : rReal01Loop ws (f + 1) i with _ | ⟨u, k⟩ <;> rw [hu] at hc <;> dsimp only at hc
    · exact absurd hc (by simp)
    · split at hc
      · rename_i hr
        obtain ⟨rfl, rfl⟩ := Prod.mk.injEq .. ▸ Option.some.inj hc
        exact (rangeCheck_iff _ _ _).mp hr
      · exact ih _ _ _ hc

theorem rIntMaxLoop_mem (ws : Nat → Nat) (max : Int) :
    ∀ fuel i v j, rIntMaxLoop ws max fuel i = some (v, j) → 0 ≤ v ∧ v < max := by
  intro fuel
  induction fuel with
  | zero => intro i v j hc; simp [rIntMaxLoop] at hc
  | succ f ih =>
    intro i v j hc
    rw [rIntMaxLoop] at hc
    rcases hu : rRealMaxLoop ws (max : ℚ) (f + 1) i with _ | ⟨u, k⟩ <;> rw [hu] at hc <;>
      dsimp only at hc
    · exact absurd hc (by simp)
    · split at hc
      · rename_i hr
        obtain ⟨rfl, rfl⟩ := Prod.mk.injEq .. ▸ Option.some.inj hc
        exact (rangeCheck_iff _ _ _).mp hr
      · exact ih _ _ _ hc

theorem rIntMinMaxLoop_mem (ws : Nat → Nat) (min max : Int) :
    ∀ fuel i v j, rIntMinMaxLoop ws min max fuel i = some (v, j) → min ≤ v ∧ v < max := by
  intro fuel
  induction fuel with
  | zero => intro i v j hc; simp [rIntMinMaxLoop] at hc
  | succ f ih =>
    intro i v j hc
    rw [rIntMinMaxLoop] at hc
    rcases hu : rRealMinMaxLoop ws (min : ℚ) (max : ℚ) (f + 1) i with _ | ⟨u, k⟩ <;>
      rw [hu] at hc <;> dsimp only at hc
    · exact absurd hc (by simp)
    · split at hc
      · rename_i hr
        obtain ⟨rfl, rfl⟩ := Prod.mk.injEq .. ▸ Option.some.inj hc
        exact (rangeCheck_iff _ _ _).mp hr
      · exact ih _ _ _ hc

theorem rUnsignedIntMaxLoop_mem (ws : Nat → Nat) (max : Nat) :
    ∀ fuel i v j, rUnsignedIntMaxLoop ws max fuel i = some (v, j) → v < max := by
  intro fuel
  induction fuel with
  | zero => intro i v j hc; simp [rUnsignedIntMaxLoop] at hc
  | succ f ih =>
    intro i v j hc
    rw [rUnsignedIntMaxLoop] at hc
    rcases hu : rRealMaxLoop ws (max : ℚ) (f + 1) i with _ | ⟨u, k⟩ <;> rw [hu] at hc <;>
      dsimp only at hc
    · exact absurd hc (by simp)
    · split at hc
      · rename_i hr
        obtain ⟨rfl, rfl⟩ := Prod.mk.injEq .. ▸ Option.some.inj hc
        exact ((rangeCheck_iff _ _ _).mp hr).2
      · exact ih _ _ _ hc

theorem rUnsignedIntMinMaxLoop_mem (ws : Nat → Nat) (min max : Nat) :
    ∀ fuel i v j, rUnsignedIntMinMaxLoop ws min max fuel i = some (v, j) →
      min ≤ v ∧ v < max := by
  intro fuel
  induction fuel with
  | zero => intro i v j hc; simp [rUnsignedIntMinMaxLoop] at hc
  | succ f ih =>
    intro i v j hc
    rw [rUnsignedIntMinMaxLoop] at hc
    rcases hu : rRealMinMaxLoop ws (min : ℚ) (max : ℚ) (f + 1) i with _ | ⟨u, k⟩ <;>
      rw [hu] at hc <;> dsimp only at hc
    · exact absurd hc (by simp)
    · split at hc
      · rename_i hr
        obtain ⟨rfl, rfl⟩ := Prod.mk.injEq .. ▸ Option.some.inj hc
        exact (rangeCheck_iff _ _ _).mp hr
      · exact ih _ _ _ hc

/-- C3: every value returned by a uniform sampling operation lies in its
stated half-open range, for every word stream (hence every generator state)
and every valid argument pair: `rReal<T>() ∈ [0,1)`, `rReal(max) ∈ [0,max)`,
`rReal(min,max) ∈ [min,max)`, `rInt(max) ∈ [0,max)`, `rInt(min,max) ∈
[min,max)`, `rUnsignedInt(max) ∈ [0,max)`, `rUnsignedInt(min,max) ∈
[min,max)`. -/
theorem uniform_range_laws (ws : Nat → Nat) :
    (∀ fuel i v j, rReal01Loop ws fuel i = some (v, j) → 0 ≤ v ∧ v < 1) ∧
    (∀ max : ℚ, 0 < max →
      ∀ fuel i v j, rRealMaxLoop ws max fuel i = some (v, j) → 0 ≤ v ∧ v < max) ∧
    (∀ min max : ℚ, min < max →
      ∀ fuel i v j, rRealMinMaxLoop ws min max fuel i = some (v, j) → min ≤ v ∧ v < max) ∧
    (∀ max : Int, 0 < max →
      ∀ fuel i v j, rIntMaxLoop ws max fuel i = some (v, j) → 0 ≤ v ∧ v < max) ∧
    (∀ min max : Int, min < max →
      ∀ fuel i v j, rIntMinMaxLoop ws min max fuel i = some (v, j) → min ≤ v ∧ v < max) ∧
    (∀ max : Nat, 0 < max →
      ∀ fuel i v j, rUnsignedIntMaxLoop ws max fuel i = some (v, j) → v < max) ∧
    (∀ min max : Nat, min < max →
      ∀ fuel i v j, rUnsignedIntMinMaxLoop ws min max fuel i = some (v, j) →
        min ≤ v ∧ v < max) :=
  ⟨rReal01Loop_mem ws,
   fun max _ => rRealMaxLoop_mem ws max,
   fun min max _ => rRealMinMaxLoop_mem ws min max,
   fun max _ => rIntMaxLoop_mem ws max,
   fun min max _ => rIntMinMaxLoop_mem ws min max,
   fun max _ => rUnsignedIntMaxLoop_mem ws max,
   fun min max _ => rUnsignedIntMinMaxLoop_mem ws min max⟩

/-- Witness for C3 at the all-zero word stream: `rReal(0, 5)` with one unit
of fuel returns `0`, which the range law places in `[0, 5)`. -/
theorem uniform_range_laws_witness : (0 : ℚ) ≤ 0 ∧ (0 : ℚ) < 5 :=
  (uniform_range_laws (fun _ => 0)).2.2.1 0 5 (by norm_num) 1 0 0 2
    (by norm_num [rRealMinMaxLoop, rReal01Loop, rRealAttempt, rangeCheck])

/-- C4: with every raw word below `2^32`, each attempt of `rReal<T>()`
consumes exactly two raw words — `hi` at the cursor first, `lo` next — and
its candidate `(hi + lo/2^32)/2^32` already lies in `[0,1)`, so the loop
returns that first candidate and advances the cursor by two; structurally, a
rejected attempt costs exactly two words before the redraw. -/
theorem rReal01_first_candidate (ws : Nat → Nat) (h : ∀ j, ws j < 2 ^ 32) :
    (∀ fuel i, rReal01Loop ws (fuel + 1) i =
        some (((ws i : ℚ) + (ws (i + 1) : ℚ) / 2 ^ 32) / 2 ^ 32, i + 2) ∧
      0 ≤ rRealAttempt ws i ∧ rRealAttempt ws i < 1) ∧
    (∀ ws' : Nat → Nat, ∀ fuel i, rangeCheck (rRealAttempt ws' i) 0 1 = false →
      rReal01Loop ws' (fuel + 1) i = rReal01Loop ws' fuel (i + 2)) := by
  constructor
  · intro fuel i
    have hmem : 0 ≤ rRealAttempt ws i ∧ rRealAttempt ws i < 1 :=
      ⟨rRealAttempt_nonneg ws i, rRealAttempt_lt_one ws h i⟩
    refine ⟨?_, hmem⟩
    rw [rReal01Loop, if_pos ((rangeCheck_iff _ _ _).mpr hmem)]
    rfl
  · intro ws' fuel i hr
    conv_lhs => rw [rReal01Loop]
    rw [if_neg (by simp [hr])]

/-- Witness for C4 at the all-zero word stream: the first attempt is
returned unchanged with the cursor advanced by two. -/
theorem rReal01_first_candidate_witness : rReal01Loop (fun _ => 0) 1 0 = some (0, 2) := by
  have h := ((rReal01_first_candidate (fun _ => 0) (fun j => by norm_num)).1 0 0).1
  norm_num at h
  exact h

theorem rReal01Loop_succ_eq (ws : Nat → Nat) (h : ∀ j, ws j < 2 ^ 32) (fuel i : Nat) :
    rReal01Loop ws (fuel + 1) i = some (rRealAttempt ws i, i + 2) := by
  rw [rReal01Loop, if_pos ((rangeCheck_iff _ _ _).mpr
    ⟨rRealAttempt_nonneg ws i, rRealAttempt_lt_one ws h i⟩)]

theorem rRealMinMax_neg1_1 (ws : Nat → Nat) (h : ∀ j, ws j < 2 ^ 32) (fuel i : Nat) :
    rRealMinMaxLoop ws (-1) 1 (fuel + 1) i = some (-1 + rRealAttempt ws i * 2, i + 2) := by
  have hu := rReal01Loop_succ_eq ws h fuel i
  have hmem : 0 ≤ rRealAttempt ws i ∧ rRealAttempt ws i < 1 :=
    ⟨rRealAttempt_nonneg ws i, rRealAttempt_lt_one ws h i⟩
  rw [rRealMinMaxLoop, hu]
  dsimp only
  rw [if_pos]
  · norm_num
  · exact (rangeCheck_iff _ _ _).mpr ⟨by nlinarith [hmem.1], by nlinarith [hmem.2]⟩

/-- First coordinate `x1` (resp. `x2` at cursor `i + 2`) drawn by the polar
loop of `normalrReal`: the value of `rReal<RealType>(-1, 1)` at cursor `i`. -/
def polarX (ws : Nat → Nat) (i : Nat) : ℚ :=
  -1 + rRealAttempt ws i * 2

/-- The squared norm `w = x1*x1 + x2*x2` of the pair drawn at cursor `i`. -/
def polarW (ws : Nat → Nat) (i : Nat) : ℚ :=
  polarX ws i * polarX ws i + polarX ws (i + 2) * polarX ws (i + 2)

/-- The rejection guard of the polar loop in `normalrReal`, from the source
line `while ( w >= 1 || w < 1E-30 )`: the pair is redrawn while this holds. -/
def marsagliaReject (w : ℚ) : Bool :=
  decide (w ≥ 1) || decide (w < 1 / 10 ^ 30)

/-- `normalrReal(mean, stddev)`: draw `x1 = rReal(-1,1)`, `x2 = rReal(-1,1)`,
set `w = x1*x1 + x2*x2`, redraw while `w >= 1 || w < 1E-30`; on acceptance
return `x1 * sqrt((-2*log w)/w) * stddev + mean`.  `sq` and `lg` are the
platform `sqrt` and `log`. -/
def normalrReal (sq lg : ℚ → ℚ) (ws : Nat → Nat) (mean stddev : ℚ) :
    Nat → Nat → Option (ℚ × Nat)
  | 0, _ => none
  | fuel + 1, i =>
    match rRealMinMaxLoop ws (-1) 1 (fuel + 1) i with
    | none => none
    | some (x1, j) =>
      match rRealMinMaxLoop ws (-1) 1 (fuel + 1) j with
      | none => none
      | some (x2, j2) =>
        if marsagliaReject (x1 * x1 + x2 * x2) then normalrReal sq lg ws mean stddev fuel j2
        else
          some (x1 * sq ((-2 * lg (x1 * x1 + x2 * x2)) / (x1 * x1 + x2 * x2)) * stddev + mean, j2)

/-- A word stream whose first pair of `rReal(-1,1)` draws is
`x1 = 2^(-63)`, `x2 = 0`, giving `w = 2^(-126)`, which is positive and
below `1` yet also below the guard bound `1E-30`. -/
def cexStream : Nat → Nat :=
  fun j => if j = 0 then 2 ^ 31 else if j = 1 then 1 else if j = 2 then 2 ^ 31 else 0

/-- C5 counterexample: the claim says the polar loop of `normalrReal`
rejects a pair unless `0 < x1*x1+x2*x2 < 1`.  On `cexStream` the first drawn
pair is `(2^(-63), 0)` with `0 < w = 2^(-126) < 1`, so by the claim it would
be accepted and a value returned; the code instead rejects it (its guard
also rejects `w < 1E-30`) and, with no fuel left for a second attempt,
produces no value. -/
theorem normalrReal_claim_cex :
    rRealMinMaxLoop cexStream (-1) 1 1 0 = some (1 / 2 ^ 63, 2) ∧
    rRealMinMaxLoop cexStream (-1) 1 1 2 = some (0, 4) ∧
    (0 < (1 / 2 ^ 63 : ℚ) * (1 / 2 ^ 63) + 0 * 0 ∧
      (1 / 2 ^ 63 : ℚ) * (1 / 2 ^ 63) + 0 * 0 < 1) ∧
    normalrReal (fun q => q) (fun q => q) cexStream 0 1 1 0 = none := by
  refine ⟨?_, ?_, by norm_num, ?_⟩
  · norm_num [rRealMinMaxLoop, rReal01Loop, rRealAttempt, rangeCheck, cexStream]
  · norm_num [rRealMinMaxLoop, rReal01Loop, rRealAttempt, rangeCheck, cexStream]
  · norm_num [normalrReal, rRealMinMaxLoop, rReal01Loop, rRealAttempt, rangeCheck, cexStream,
      marsagliaReject]

/-- C5 amended: `normalrReal` draws `x1 = rReal(-1,1)` and `x2 = rReal(-1,1)`
(values in `[-1,1)`), and rejects the pair unless `1E-30 ≤ x1²+x2² < 1` (not
unless `0 < x1²+x2² < 1`); on the first accepted pair it returns
`x1 * sqrt((-2*ln(x1²+x2²))/(x1²+x2²)) * stddev + mean`, and a rejected pair
costs four raw words before the redraw. -/
theorem normalrReal_polar (sq lg : ℚ → ℚ) (ws : Nat → Nat) (h : ∀ j, ws j < 2 ^ 32)
    (mean stddev : ℚ) (fuel i : Nat) :
    (∀ w : ℚ, marsagliaReject w = false ↔ 1 / 10 ^ 30 ≤ w ∧ w < 1) ∧
    rRealMinMaxLoop ws (-1) 1 (fuel + 1) i = some (polarX ws i, i + 2) ∧
    (marsagliaReject (polarW ws i) = false →
      normalrReal sq lg ws mean stddev (fuel + 1) i =
        some (polarX ws i * sq ((-2 * lg (polarW ws i)) / polarW ws i) * stddev + mean,
          i + 4)) ∧
    (marsagliaReject (polarW ws i) = true →
      normalrReal sq lg ws mean stddev (fuel + 1) i =
        normalrReal sq lg ws mean stddev fuel (i + 4)) := by
  have hx1 := rRealMinMax_neg1_1 ws h fuel i
  have hx2 := rRealMinMax_neg1_1 ws h fuel (i + 2)
  refine ⟨?_, by rw [hx1]; rfl, ?_, ?_⟩
  · intro w
    simp only [marsagliaReject, Bool.or_eq_false_iff, decide_eq_false_iff_not, not_lt, not_le,
      ge_iff_le]
    exact and_comm
  · intro hrej
    rw [normalrReal, hx1]
    dsimp only
    rw [hx2]
    dsimp only
    rw [if_neg (by simp only [polarW, polarX] at hrej; simp [hrej])]
    simp only [polarW, polarX]
  · intro hrej
    rw [normalrReal, hx1]
    dsimp only
    rw [hx2]
    dsimp only
    rw [if_pos (by simp only [polarW, polarX] at hrej; exact hrej)]

/-- Witness for the amended C5 at the all-zero word stream: the first pair
is `(-1, -1)` with `w = 2 ≥ 1`, so it is rejected and the remaining fuel is
consumed without producing a value. -/
theorem normalrReal_polar_witness :
    normalrReal (fun q => q) (fun q => q) (fun _ => 0) 0 1 1 0 = none := by
  have h := (normalrReal_polar (fun q => q) (fun q => q) (fun _ => 0) (fun j => by norm_num)
    0 1 0 0).2.2.2 (by norm_num [marsagliaReject, polarW, polarX, rRealAttempt])
  rw [h]
  rfl

/-- The Stirling constant `C0 = 0.918938533204672722` of `LnFac`. -/
def lnFacC0 : ℚ := 918938533204672722 / 10 ^ 18

/-- The Stirling constant `C1 = 1/12` of `LnFac`. -/
def lnFacC1 : ℚ := 1 / 12

/-- The Stirling constant `C3 = -1/360` of `LnFac`. -/
def lnFacC3 : ℚ := -1 / 360

/-- Entry `fac_table[n]` of the lazily built table of `LnFac`: the
cumulative sum `log 1 + log 2 + … + log n`. -/
def lnFacTable (lg : ℚ → ℚ) (n : Nat) : ℚ :=
  ∑ k in Finset.Icc 1 n, lg k

/-- `LnFac(n)`: for `n < FAK_LEN = 100` either reject negative `n`, return
`0` for `n ≤ 1`, or return the cached cumulative sum; for `n ≥ 100` return
the Stirling series `(n + 0.5)*log n - n + C0 + r*(C1 + r*r*C3)` with
`r = 1/n`. -/
def LnFac (lg : ℚ → ℚ) (n : Int) : Except AolErr ℚ :=
  if n < 100 then
    if n ≤ 1 then
      if n < 0 then .error (.exceptionMsg "Negative parameter in LnFac function!")
      else .ok 0
    else .ok (lnFacTable lg n.toNat)
  else
    .ok ((n + 1 / 2) * lg n - n + lnFacC0 + (1 / n) * (lnFacC1 + (1 / n) * (1 / n) * lnFacC3))

/-- C6: `LnFac` raises InvalidArgument for every `n < 0`, returns exactly
`0` for `n ∈ {0, 1}`, returns the cached cumulative sum
`ln 1 + ln 2 + … + ln n` for every `2 ≤ n < 100`, and returns the Stirling
series `(n+0.5)·ln n − n + C0 + C1/n + C3/n³` with
`C0 = 0.918938533204672722`, `C1 = 1/12`, `C3 = −1/360` for every `n ≥ 100`. -/
theorem LnFac_cases (lg : ℚ → ℚ) (n : Int) :
    (n < 0 → LnFac lg n = .error (.exceptionMsg "Negative parameter in LnFac function!")) ∧
    ((n = 0 ∨ n = 1) → LnFac lg n = .ok 0) ∧
    (2 ≤ n → n < 100 → LnFac lg n = .ok (∑ k in Finset.Icc 1 n.toNat, lg k)) ∧
    (100 ≤ n →
      LnFac lg n = .ok ((n + 1 / 2) * lg n - n + lnFacC0 + lnFacC1 / n + lnFacC3 / n ^ 3)) := by
  refine ⟨?_, ?_, ?_, ?_⟩
  · intro hn
    have h1 : n < 100 := by omega
    have h2 : n ≤ 1 := by omega
    simp [LnFac, h1, h2, hn]
  · rintro (rfl | rfl) <;> norm_num [LnFac]
  · intro h2 h100
    have h1 : ¬ n ≤ 1 := by omega
    simp [LnFac, h100, h1, lnFacTable]
  · intro h100
    have h1 : ¬ n < 100 := by omega
    have hn0 : (n : ℚ) ≠ 0 := by
      have : (100 : ℚ) ≤ (n : ℚ) := by exact_mod_cast h100
      intro hz
      rw [hz] at this
      norm_num at this
    simp only [LnFac, if_neg h1, Except.ok.injEq]
    field_simp
    ring

/-- Witness for C6 at `n = 150` (beyond the cached table) with the identity
standing in for `log`. -/
theorem LnFac_cases_witness :
    (100 : Int) ≤ 150 ∧
      LnFac (fun q => q) 150 =
        .ok ((((150 : Int) : ℚ) + 1 / 2) * ((150 : Int) : ℚ) - ((150 : Int) : ℚ) + lnFacC0 +
          lnFacC1 / ((150 : Int) : ℚ) + lnFacC3 / ((150 : Int) : ℚ) ^ 3) :=
  ⟨by norm_num, (LnFac_cases (fun q => q) 150).2.2.2 (by norm_num)⟩

/-- The double constant `SHAT1 = 2.943035529371538573` (8/e) of `poissonrInt`. -/
def SHAT1 : ℚ := 2943035529371538573 / 10 ^ 18

/-- The double constant `SHAT2 = 0.8989161620588987408` (3-sqrt(12/e)) of
`poissonrInt`. -/
def SHAT2 : ℚ := 8989161620588987408 / 10 ^ 19

/-- The low-mean branch of `poissonrInt` (`0 < Lambda < 1E-6`): with
`d = sqrt(Lambda)`, return `0` if the first draw is `≥ d`; otherwise with
`r = draw * d`, return `0` if `r > Lambda*(1-Lambda)`, `1` if
`r > 0.5*Lambda²*(1-Lambda)`, else `2`. -/
def poissonSmall (sq : ℚ → ℚ) (ws : Nat → Nat) (fuel : Nat) (Lambda : ℚ) (i : Nat) :
    Option Int :=
  match rReal01Loop ws fuel i with
  | none => none
  | some (u1, j) =>
    if u1 ≥ sq Lambda then some 0
    else
      match rReal01Loop ws fuel j with
      | none => none
      | some (u2, _) =>
        if u2 * sq Lambda > Lambda * (1 - Lambda) then some 0
        else if u2 * sq Lambda > 1 / 2 * Lambda ^ 2 * (1 - Lambda) then some 1
        else some 2

/-- Inner `do … while` of the direct-simulation branch (`1E-6 ≤ Lambda < 17`):
`r -= f; if (r <= 0) return x; x++; f *= Lambda; r *= x;` repeated
`while (x <= bound)` with `bound = 130`; `none` means the bound was hit and
the outer loop restarts.  The remaining iteration count is the explicit
first argument (the loop body runs at most 131 times, for `x = 0 … 130`). -/
def poissonDirectInner (Lambda : ℚ) : Nat → ℚ → ℚ → Nat → Option Nat
  | 0, _, _, _ => none
  | fuel + 1, r, f, x =>
    if r - f ≤ 0 then some x
    else if x + 1 ≤ 130 then
      poissonDirectInner Lambda fuel ((r - f) * (x + 1 : Nat)) (f * Lambda) (x + 1)
    else none

/-- Outer `while (true)` of the direct-simulation branch: draw `r`, run the
inner walk from `x = 0`, `f = pois_f0 = exp(-Lambda)`; restart when the
inner bound is hit. -/
def poissonDirectLoop (Lambda pois_f0 : ℚ) (ws : Nat → Nat) : Nat → Nat → Option (Nat × Nat)
  | 0, _ => none
  | fuel + 1, i =>
    match rReal01Loop ws (fuel + 1) i with
    | none => none
    | some (r, j) =>
      match poissonDirectInner Lambda 131 r pois_f0 0 with
      | some x => some (x, j)
      | none => poissonDirectLoop Lambda pois_f0 ws fuel j

/-- Acceptance test of the transformed-rejection branch for a candidate `k`:
`lf = k*pois_g - LnFac(k) - pois_f0`; break with `k` if
`lf >= u*(4-u)-3`; continue if `u*(u-lf) > 1`; break with `k` if
`2*log(u) <= lf`; otherwise continue.  `.ok none` encodes `continue`. -/
def poissonLargeTest (lg : ℚ → ℚ) (pois_g pois_f0 : ℚ) (u : ℚ) (k : Int) :
    Except AolErr (Option Int) :=
  match LnFac lg k with
  | .error e => .error e
  | .ok lnk =>
    if (k : ℚ) * pois_g - lnk - pois_f0 ≥ u * (4 - u) - 3 then .ok (some k)
    else if u * (u - ((k : ℚ) * pois_g - lnk - pois_f0)) > 1 then .ok none
    else if 2 * lg u ≤ (k : ℚ) * pois_g - lnk - pois_f0 then .ok (some k)
    else .ok none

/-- One iteration of the transformed-rejection branch after the two draws
`u ≠ 0` and `v`: `x = pois_a + pois_h*(v - 0.5)/u`; continue if
`x < 0 || x >= pois_bound`; otherwise test the candidate `k = (int)x`. -/
def poissonLargeStep (lg : ℚ → ℚ) (pois_a pois_g pois_f0 pois_h : ℚ) (pois_bound : Int)
    (u v : ℚ) : Except AolErr (Option Int) :=
  if pois_a + pois_h * (v - 1 / 2) / u < 0 ∨ (pois_bound : ℚ) ≤ pois_a + pois_h * (v - 1 / 2) / u
    then .ok none
  else poissonLargeTest lg pois_g pois_f0 u (ratTrunc (pois_a + pois_h * (v - 1 / 2) / u))

/-- `while (true)` of the transformed-rejection branch (`17 ≤ Lambda ≤ 2E9`):
draw `u`, continue if `u == 0`, draw the second uniform and run one
iteration; `.ok none` is fuel exhaustion. -/
def poissonLargeLoop (lg : ℚ → ℚ) (ws : Nat → Nat) (pois_a pois_g pois_f0 pois_h : ℚ)
    (pois_bound : Int) : Nat → Nat → Except AolErr (Option Int)
  | 0, _ => .ok none
  | fuel + 1, i =>
    match rReal01Loop ws (fuel + 1) i with
    | none => .ok none
    | some (u, j) =>
      if u = 0 then poissonLargeLoop lg ws pois_a pois_g pois_f0 pois_h pois_bound fuel j
      else
        match rReal01Loop ws (fuel + 1) j with
        | none => .ok none
        | some (v, j2) =>
          match poissonLargeStep lg pois_a pois_g pois_f0 pois_h pois_bound u v with
          | .error e => .error e
          | .ok (some k) => .ok (some k)
          | .ok none => poissonLargeLoop lg ws pois_a pois_g pois_f0 pois_h pois_bound fuel j2

/-- Setup of the transformed-rejection branch: `pois_a = Lambda + 0.5`,
`mode = (int)Lambda`, `pois_g = log(Lambda)`,
`pois_f0 = mode*pois_g - LnFac(mode)`,
`pois_h = sqrt(SHAT1*pois_a) + SHAT2`,
`pois_bound = (int)(pois_a + 6.0*pois_h)`. -/
def poissonLarge (sq lg : ℚ → ℚ) (ws : Nat → Nat) (fuel : Nat) (Lambda : ℚ) (i : Nat) :
    Except AolErr (Option Int) :=
  match LnFac lg (ratTrunc Lambda) with
  | .error e => .error e
  | .ok lnMode =>
    poissonLargeLoop lg ws (Lambda + 1 / 2) (lg Lambda)
      ((ratTrunc Lambda : ℚ) * lg Lambda - lnMode)
      (sq (SHAT1 * (Lambda + 1 / 2)) + SHAT2)
      (ratTrunc ((Lambda + 1 / 2) + 6 * (sq (SHAT1 * (Lambda + 1 / 2)) + SHAT2)))
      fuel i

/-- `poissonrInt(Lambda)`: dispatch on `Lambda < 17`, `Lambda < 1E-6`,
`Lambda < 0`, `Lambda == 0`, `Lambda > 2E9`, then the small, direct or
transformed-rejection branch.  `sq`, `lg`, `ex` are the platform `sqrt`,
`log`, `exp`; `.ok none` is fuel exhaustion of a rejection loop. -/
def poissonrInt (sq lg ex : ℚ → ℚ) (ws : Nat → Nat) (fuel : Nat) (Lambda : ℚ) (i : Nat) :
    Except AolErr (Option Int) :=
  if Lambda < 17 then
    if Lambda < 1 / 10 ^ 6 then
      if Lambda < 0 then
        .error (.exceptionMsg "Mean value must be greater than or equal to zero!")
      else if Lambda = 0 then .ok (some 0)
      else .ok (poissonSmall sq ws fuel Lambda i)
    else
      match poissonDirectLoop Lambda (ex (-Lambda)) ws fuel i with
      | none => .ok none
      | some (x, _) => .ok (some (x : Int))
  else
    if Lambda > 2 * 10 ^ 9 then
      .error (.exceptionMsg "Mean value is too large to generate random samples from it!")
    else poissonLarge sq lg ws fuel Lambda i

theorem LnFac_ok_of_nonneg (lg : ℚ → ℚ) (n : Int) (hn : 0 ≤ n) :
    ∃ q, LnFac lg n = .ok q := by
  unfold LnFac
  split
  · split
    · rw [if_neg (by omega)]
      exact ⟨0, rfl⟩
    · exact ⟨_, rfl⟩
  · exact ⟨_, rfl⟩

theorem ratTrunc_nonneg (q : ℚ) (hq : 0 ≤ q) : 0 ≤ ratTrunc q :=
  Int.tdiv_nonneg (Rat.num_nonneg.mpr hq) (Int.ofNat_nonneg _)

theorem poissonLargeTest_no_error (lg : ℚ → ℚ) (pois_g pois_f0 u : ℚ) (k : Int)
    (hk : 0 ≤ k) (e : AolErr) : poissonLargeTest lg pois_g pois_f0 u k ≠ .error e := by
  unfold poissonLargeTest
  obtain ⟨q, hq⟩ := LnFac_ok_of_nonneg lg k hk
  rw [hq]
  dsimp only
  split
  · simp
  · split
    · simp
    · split <;> simp

theorem poissonLargeStep_no_error (lg : ℚ → ℚ) (pois_a pois_g pois_f0 pois_h : ℚ)
    (pois_bound : Int) (u v : ℚ) (e : AolErr) :
    poissonLargeStep lg pois_a pois_g pois_f0 pois_h pois_bound u v ≠ .error e := by
  unfold poissonLargeStep
  split
  · simp
  · rename_i hx
    push_neg at hx
    exact poissonLargeTest_no_error lg pois_g pois_f0 u _ (ratTrunc_nonneg _ hx.1) e

theorem poissonLargeLoop_no_error (lg : ℚ → ℚ) (ws : Nat → Nat)
    (pois_a pois_g pois_f0 pois_h : ℚ) (pois_bound : Int) :
    ∀ fuel i e, poissonLargeLoop lg ws pois_a pois_g pois_f0 pois_h pois_bound fuel i ≠
      .error e := by
  intro fuel
  induction fuel with
  | zero => intro i e hc; simp [poissonLargeLoop] at hc
  | succ f ih =>
    intro i e hc
    rw [poissonLargeLoop] at hc
    rcases h1 : rReal01Loop ws (f + 1) i with _ | ⟨u, j⟩ <;> rw [h1] at hc <;> dsimp only at hc
    · exact absurd hc (by simp)
    · split at hc
      · exact ih _ _ hc
      · rcases h2 : rReal01Loop ws (f + 1) j with _ | ⟨v, j2⟩ <;> rw [h2] at hc <;>
          dsimp only at hc
        · exact absurd hc (by simp)
        · rcases h3 : poissonLargeStep lg pois_a pois_g pois_f0 pois_h pois_bound u v with
            e' | k <;> rw [h3] at hc
          · exact poissonLargeStep_no_error lg pois_a pois_g pois_f0 pois_h pois_bound u v e' h3
          · rcases k with _ | k <;> dsimp only at hc
            · exact ih _ _ hc
            · exact absurd hc (by simp)

theorem poissonLarge_no_error (sq lg : ℚ → ℚ) (ws : Nat → Nat) (fuel : Nat) (Lambda : ℚ)
    (i : Nat) (h17 : 17 ≤ Lambda) (e : AolErr) :
    poissonLarge sq lg ws fuel Lambda i ≠ .error e := by
  unfold poissonLarge
  obtain ⟨q, hq⟩ := LnFac_ok_of_nonneg lg (ratTrunc Lambda)
    (ratTrunc_nonneg Lambda (le_trans (by norm_num) h17))
  rw [hq]
  exact poissonLargeLoop_no_error lg ws _ _ _ _ _ fuel i e

/-- C2: `poissonrInt(Lambda)` raises InvalidArgument exactly when
`Lambda < 0` or `Lambda > 2E9` (with the source's two messages); for
`Lambda == 0` it returns `0` deterministically, for every word stream, fuel
and transcendental approximation; for every `Lambda ∈ [0, 2E9]` no error is
raised. -/
theorem poissonrInt_errors (sq lg ex : ℚ → ℚ) (ws : Nat → Nat) (fuel : Nat) (Lambda : ℚ)
    (i : Nat) :
    ((∃ e, poissonrInt sq lg ex ws fuel Lambda i = .error e) ↔
      Lambda < 0 ∨ 2 * 10 ^ 9 < Lambda) ∧
    (Lambda < 0 → poissonrInt sq lg ex ws fuel Lambda i =
      .error (.exceptionMsg "Mean value must be greater than or equal to zero!")) ∧
    (2 * 10 ^ 9 < Lambda → poissonrInt sq lg ex ws fuel Lambda i =
      .error (.exceptionMsg "Mean value is too large to generate random samples from it!")) ∧
    (Lambda = 0 → poissonrInt sq lg ex ws fuel Lambda i = .ok (some 0)) := by
  have hneg : Lambda < 0 → poissonrInt sq lg ex ws fuel Lambda i =
      .error (.exceptionMsg "Mean value must be greater than or equal to zero!") := by
    intro hn
    have h17 : Lambda < 17 := by linarith
    have h6 : Lambda < 1 / 10 ^ 6 := by linarith
    unfold poissonrInt
    rw [if_pos h17, if_pos h6, if_pos hn]
  have hbig : 2 * 10 ^ 9 < Lambda → poissonrInt sq lg ex ws fuel Lambda i =
      .error (.exceptionMsg "Mean value is too large to generate random samples from it!") := by
    intro hb
    have h17 : ¬ Lambda < 17 := by push_neg; linarith
    unfold poissonrInt
    rw [if_neg h17, if_pos hb]
  have hzero : Lambda = 0 → poissonrInt sq lg ex ws fuel Lambda i = .ok (some 0) := by
    rintro rfl
    unfold poissonrInt
    rw [if_pos (by norm_num), if_pos (by norm_num), if_neg (by norm_num), if_pos rfl]
  refine ⟨⟨?_, ?_⟩, hneg, hbig, hzero⟩
  · rintro ⟨e, he⟩
    by_contra hrange
    push_neg at hrange
    obtain ⟨h0, h2e9⟩ := hrange
    unfold poissonrInt at he
    split at he
    · split at he
      · rw [if_neg (by push_neg; exact h0)] at he
        split at he
        · exact absurd he (by simp)
        · exact absurd he (by simp)
      · rcases hd : poissonDirectLoop Lambda (ex (-Lambda)) ws fuel i with _ | ⟨x, j⟩ <;>
          rw [hd] at he <;> dsimp only at he
        · exact absurd he (by simp)
        · exact absurd he (by simp)
    · rw [if_neg (by push_neg; exact h2e9)] at he
      rename_i h17
      exact poissonLarge_no_error sq lg ws fuel Lambda i (by push_neg at h17; exact h17) e he
  · rintro (hn | hb)
    · exact ⟨_, hneg hn⟩
    · exact ⟨_, hbig hb⟩

/-- Witness for C2 at `Lambda = 0`: the sampler returns `0` with no error,
for the all-zero stream and zero fuel. -/
theorem poissonrInt_errors_witness :
    poissonrInt (fun q => q) (fun q => q) (fun q => q) (fun _ => 0) 0 0 0 = .ok (some 0) :=
  (poissonrInt_errors (fun q => q) (fun q => q) (fun q => q) (fun _ => 0) 0 0 0).2.2.2 rfl

theorem poissonDirectInner_le (Lambda : ℚ) :
    ∀ fuel r f x y, x ≤ 130 → poissonDirectInner Lambda fuel r f x = some y → y ≤ 130 := by
  intro fuel
  induction fuel with
  | zero => intro r f x y _ hc; simp [poissonDirectInner] at hc
  | succ fu ih =>
    intro r f x y hx hc
    rw [poissonDirectInner] at hc
    split at hc
    · obtain rfl : x = y := by simpa using hc
      exact hx
    · split at hc
      · exact ih _ _ _ _ (by omega) hc
      · exact absurd hc (by simp)

theorem poissonDirectLoop_le (Lambda pois_f0 : ℚ) (ws : Nat → Nat) :
    ∀ fuel i x j, poissonDirectLoop Lambda pois_f0 ws fuel i = some (x, j) → x ≤ 130 := by
  intro fuel
  induction fuel with
  | zero => intro i x j hc; simp [poissonDirectLoop] at hc
  | succ f ih =>
    intro i x j hc
    rw [poissonDirectLoop] at hc
    rcases h1 : rReal01Loop ws (f + 1) i with _ | ⟨r, k⟩ <;> rw [h1] at hc <;> dsimp only at hc
    · exact absurd hc (by simp)
    · rcases h2 : poissonDirectInner Lambda 131 r pois_f0 0 with _ | y <;> rw [h2] at hc <;>
        dsimp only at hc
      · exact ih _ _ _ hc
      · obtain ⟨rfl, rfl⟩ := Prod.mk.injEq .. ▸ Option.some.inj hc
        exact poissonDirectInner_le Lambda 131 r pois_f0 0 y (by omega) h2

/-- C10: for every `Lambda` with `1E-6 ≤ Lambda < 17` and every word stream,
fuel and transcendental approximation, any value returned by
`poissonrInt(Lambda)` lies in `[0, 130]`: the direct-simulation inner loop
restarts once its counter exceeds the bound 130, so the returned count never
exceeds 130. -/
theorem poissonrInt_direct_bound (sq lg ex : ℚ → ℚ) (ws : Nat → Nat) (fuel : Nat)
    (Lambda : ℚ) (i : Nat) (h1 : 1 / 10 ^ 6 ≤ Lambda) (h2 : Lambda < 17) (x : Int)
    (hx : poissonrInt sq lg ex ws fuel Lambda i = .ok (some x)) : 0 ≤ x ∧ x ≤ 130 := by
  unfold poissonrInt at hx
  rw [if_pos h2, if_neg (by push_neg; exact h1)] at hx
  rcases hd : poissonDirectLoop Lambda (ex (-Lambda)) ws fuel i with _ | ⟨y, j⟩ <;>
    rw [hd] at hx <;> dsimp only at hx
  · exact absurd hx (by simp)
  · obtain rfl : (y : Int) = x := by simpa using hx
    have := poissonDirectLoop_le Lambda (ex (-Lambda)) ws fuel i y j hd
    exact ⟨Int.ofNat_nonneg y, by exact_mod_cast this⟩

/-- Witness for C10 at `Lambda = 1` with an all-zero word stream and
`exp(-1)` approximated by `1`: the sampler returns `0`, which lies in
`[0, 130]`. -/
theorem poissonrInt_direct_bound_witness : (0 : Int) ≤ 0 ∧ (0 : Int) ≤ 130 := by
  have hloop : rReal01Loop (fun _ => 0) 1 0 = some (0, 2) := by
    norm_num [rReal01Loop, rRealAttempt, rangeCheck]
  have hinner : poissonDirectInner 1 131 0 1 0 = some 0 := by
    show poissonDirectInner 1 (130 + 1) 0 1 0 = some 0
    rw [poissonDirectInner, if_pos (by norm_num)]
  have hd : poissonDirectLoop 1 1 (fun _ => 0) 1 0 = some (0, 2) := by
    rw [poissonDirectLoop, hloop]
    dsimp only
    rw [hinner]
  have hfull : poissonrInt (fun q => q) (fun q => q) (fun _ => 1) (fun _ => 0) 1 1 0 =
      .ok (some 0) := by
    unfold poissonrInt
    rw [if_pos (by norm_num), if_neg (by norm_num)]
    dsimp only
    rw [hd]
    rfl
  exact poissonrInt_direct_bound (fun q => q) (fun q => q) (fun _ => 1) (fun _ => 0) 1 1 0
    (by norm_num) (by norm_num) 0 hfull

/-- C7: after `g.reSeed(s)` the generator state equals that of a freshly
constructed `RandomGenerator(s)` — hence `getSeed` returns `s` and every
subsequent sequence of draws (any function of the state) coincides with the
fresh generator's.  In this state-passing embedding `reSeed` returns a new
state value and leaves every other generator value untouched, so re-seeding
one instance cannot affect another. -/
theorem reSeed_eq_fresh (g : RandomGenerator) (s : Nat) :
    reSeed g s = mkRandomGenerator s ∧ (reSeed g s).getSeed = s := by
  constructor
  · rfl
  · rfl

/-- C8: copy construction and assignment of a `RandomGenerator` throw the
UnsupportedOperation error (`aol::UnimplementedCodeException`) for every
generator state: live state can never be duplicated this way. -/
theorem copy_assign_unsupported :
    (∀ g : RandomGenerator, ∃ msg, copyConstruct g = .error (.unimplementedCode msg) ∧
      ∀ g' : RandomGenerator, copyConstruct g ≠ .ok g') ∧
    (∀ g h : RandomGenerator, ∃ msg, assign g h = .error (.unimplementedCode msg) ∧
      ∀ g' : RandomGenerator, assign g h ≠ .ok g') := by
  constructor
  · intro g
    exact ⟨_, rfl, fun g' h => by simp [copyConstruct] at h⟩
  · intro g h
    exact ⟨_, rfl, fun g' hc => by simp [assign] at hc⟩

/-- Base-class state of `ProbDistributionFunctionAnyD`: the sample count
`_nSamples` and the three distance fields `_L2Dist`, `_LInfDist`,
`_CvMDist`, together with a validity flag for those fields.  The flag is
modelled from the spec: the constructor body lives in the missing
`probDistributionFunction.cpp`, and spec §3 (DistanceResult) makes the
fields "valid only after a comparison has been run". -/
structure ProbDistributionFunctionAnyD where
  nSamples : Nat
  L2Dist : ℚ
  LInfDist : ℚ
  CvMDist : ℚ
  distComputed : Bool
deriving DecidableEq

/-- Modelled from the spec: the `ProbDistributionFunctionAnyD` constructor
body is not under src/ (only its declaration).  A freshly constructed
distribution object has its distance fields not yet valid; the numeric
placeholders are zero. -/
def ProbDistributionFunctionAnyD.fresh (n : Nat) : ProbDistributionFunctionAnyD :=
  ⟨n, 0, 0, 0, false⟩

/-- `getL2Dist`: plain field return, `return ( _L2Dist );` — no check, no
error path (typed in the error monad to make that visible). -/
def getL2Dist (p : ProbDistributionFunctionAnyD) : Except AolErr ℚ :=
  .ok p.L2Dist

/-- `getLInfDist`: plain field return of `_LInfDist`. -/
def getLInfDist (p : ProbDistributionFunctionAnyD) : Except AolErr ℚ :=
  .ok p.LInfDist

/-- `getKSDist`: plain field return of `_LInfDist` (same field as
`getLInfDist`). -/
def getKSDist (p : ProbDistributionFunctionAnyD) : Except AolErr ℚ :=
  .ok p.LInfDist

/-- `getCvMDist`: plain field return of `_CvMDist`. -/
def getCvMDist (p : ProbDistributionFunctionAnyD) : Except AolErr ℚ :=
  .ok p.CvMDist

/-- Modelled from the spec: the body of
`ProbDistributionFunctionAnyD::getScaledKSDistanceTo` is in the missing
`probDistributionFunction.cpp`.  Spec §7: "PreconditionViolation:
requesting scaled distances before computeDistanceTo has been invoked";
§4.4: "Scaled accessors apply a sample-size factor sqrt(n0*n1/(n0+n1))".
`sq` is the platform square root. -/
def getScaledKSDistanceTo (sq : ℚ → ℚ) (p other : ProbDistributionFunctionAnyD) :
    Except AolErr ℚ :=
  if p.distComputed then
    .ok (sq ((p.nSamples * other.nSamples : ℚ) / ((p.nSamples : ℚ) + other.nSamples)) *
      p.LInfDist)
  else .error .preconditionViolation

/-- Modelled from the spec, as `getScaledKSDistanceTo` but for the CvM
distance (body in the missing `probDistributionFunction.cpp`). -/
def getScaledCvMDistanceTo (sq : ℚ → ℚ) (p other : ProbDistributionFunctionAnyD) :
    Except AolErr ℚ :=
  if p.distComputed then
    .ok (sq ((p.nSamples * other.nSamples : ℚ) / ((p.nSamples : ℚ) + other.nSamples)) *
      p.CvMDist)
  else .error .preconditionViolation

/-- Modelled from the spec, as `getScaledKSDistanceTo` but for the L2
distance (body in the missing `probDistributionFunction.cpp`). -/
def getScaledL2DistanceTo (sq : ℚ → ℚ) (p other : ProbDistributionFunctionAnyD) :
    Except AolErr ℚ :=
  if p.distComputed then
    .ok (sq ((p.nSamples * other.nSamples : ℚ) / ((p.nSamples : ℚ) + other.nSamples)) *
      p.L2Dist)
  else .error .preconditionViolation

/-- Value of the cumulative table at `x`: the mapped value of the greatest
breakpoint `≤ x` (the table is kept in ascending key order, as a
`std::map` is), `0` left of every breakpoint. -/
def cdfAt (pdf : List (ℚ × ℚ)) (x : ℚ) : ℚ :=
  pdf.foldl (fun acc p => if p.1 ≤ x then p.2 else acc) 0

/-- As `cdfAt` with strict comparison: the cumulative value just below `x`. -/
def cdfBelow (pdf : List (ℚ × ℚ)) (x : ℚ) : ℚ :=
  pdf.foldl (fun acc p => if p.1 < x then p.2 else acc) 0

/-- A 1D probability distribution: base-class state plus the `_pdf` map from
value to cumulative probability (ascending association list). -/
structure ProbDistributionFunction1D extends ProbDistributionFunctionAnyD where
  pdf : List (ℚ × ℚ)
deriving DecidableEq

/-- Modelled from the spec: the body of
`ProbDistributionFunction1D::computePDFdistTo` is in the missing
`probDistributionFunction.cpp`.  Spec §4.4: the comparison "walks the union
of breakpoints of the two Empirical Distributions in ascending order and
accumulates" the KS distance (maximum absolute difference of the two
cumulative functions over all breakpoints), the CvM distance (sum of
squared differences weighted by the combined probability mass at each
breakpoint) and the rank-normalized L2 distance, and populates the cached
distance fields — making them valid for the subsequent scaled accessors. -/
def computePDFdistTo (d other : ProbDistributionFunction1D) : ProbDistributionFunction1D :=
  { d with
    LInfDist :=
      (((d.pdf.map Prod.fst ++ other.pdf.map Prod.fst).dedup).map
        (fun k => |cdfAt d.pdf k - cdfAt other.pdf k|)).foldl max 0,
    CvMDist :=
      (((d.pdf.map Prod.fst ++ other.pdf.map Prod.fst).dedup).map
        (fun k =>
          (((d.nSamples : ℚ) * (cdfAt d.pdf k - cdfBelow d.pdf k) +
            (other.nSamples : ℚ) * (cdfAt other.pdf k - cdfBelow other.pdf k)) /
            ((d.nSamples : ℚ) + other.nSamples)) *
          (cdfAt d.pdf k - cdfAt other.pdf k) ^ 2)).foldl (· + ·) 0,
    L2Dist :=
      (((d.pdf.map Prod.fst ++ other.pdf.map Prod.fst).dedup).map
        (fun k => (cdfAt d.pdf k - cdfAt other.pdf k) ^ 2)).foldl (· + ·) 0 /
        ((d.pdf.map Prod.fst ++ other.pdf.map Prod.fst).dedup).length,
    distComputed := true }

/-- C1 counterexample: a freshly constructed distribution object — no
comparison has been run, its validity flag is `false` — returns `.ok` from
every unscaled accessor (`getL2Dist`, `getLInfDist`, `getKSDist`,
`getCvMDist`) instead of raising PreconditionViolation, refuting the claim
that all seven distance accessors raise before `computePDFdistTo`. -/
theorem dist_accessors_cex :
    (ProbDistributionFunctionAnyD.fresh 5).distComputed = false ∧
    getL2Dist (ProbDistributionFunctionAnyD.fresh 5) = .ok 0 ∧
    getLInfDist (ProbDistributionFunctionAnyD.fresh 5) = .ok 0 ∧
    getKSDist (ProbDistributionFunctionAnyD.fresh 5) = .ok 0 ∧
    getCvMDist (ProbDistributionFunctionAnyD.fresh 5) = .ok 0 :=
  ⟨rfl, rfl, rfl, rfl, rfl⟩

/-- C1 amended: before `computePDFdistTo` has been invoked on a distribution
object (validity flag `false`, as on a fresh object) each scaled accessor
(`getScaledKSDistanceTo`, `getScaledCvMDistanceTo`, `getScaledL2DistanceTo`)
raises PreconditionViolation, while each unscaled accessor (`getL2Dist`,
`getLInfDist`, `getKSDist`, `getCvMDist`) returns its stored field with no
precondition check; `computePDFdistTo` is what sets the flag. -/
theorem dist_accessors_precondition (sq : ℚ → ℚ) (p other : ProbDistributionFunctionAnyD)
    (h : p.distComputed = false) :
    getScaledKSDistanceTo sq p other = .error .preconditionViolation ∧
    getScaledCvMDistanceTo sq p other = .error .preconditionViolation ∧
    getScaledL2DistanceTo sq p other = .error .preconditionViolation ∧
    getL2Dist p = .ok p.L2Dist ∧
    getLInfDist p = .ok p.LInfDist ∧
    getKSDist p = .ok p.LInfDist ∧
    getCvMDist p = .ok p.CvMDist ∧
    (∀ n, (ProbDistributionFunctionAnyD.fresh n).distComputed = false) ∧
    (∀ d o : ProbDistributionFunction1D, (computePDFdistTo d o).distComputed = true) := by
  refine ⟨?_, ?_, ?_, rfl, rfl, rfl, rfl, fun n => rfl, fun d o => rfl⟩ <;>
    simp [getScaledKSDistanceTo, getScaledCvMDistanceTo, getScaledL2DistanceTo, h]

/-- Witness for the amended C1 on two fresh distribution objects. -/
theorem dist_accessors_precondition_witness :
    getScaledKSDistanceTo (fun q => q) (ProbDistributionFunctionAnyD.fresh 5)
      (ProbDistributionFunctionAnyD.fresh 3) = .error .preconditionViolation :=
  (dist_accessors_precondition (fun q => q) (ProbDistributionFunctionAnyD.fresh 5)
    (ProbDistributionFunctionAnyD.fresh 3) rfl).1

/-- Insertion into a sorted association list standing for
`std::map<RealType, RealType>`: keys stay ascending and `pdf[key] = value`
overwrites an existing key. -/
def mapInsert (k v : ℚ) : List (ℚ × ℚ) → List (ℚ × ℚ)
  | [] => [(k, v)]
  | (a, b) :: t =>
    if k < a then (k, v) :: (a, b) :: t
    else if k = a then (k, v) :: t
    else (a, b) :: mapInsert k v t

/-- Modelled from the spec: `aol::DiscreteValueInterpolator` (with its
`setVals` and `invertIfMonotonic`) is not under src/ (only its use in
`PRNGForGivenDistr1D` is).  Spec §4.5: construction "builds a monotonic
piecewise-linear interpolant mapping cumulative probability to value;
construction fails (or must assert) if the supplied cumulative table is not
monotonic".  The structure stores the breakpoint table. -/
structure DiscreteValueInterpolator where
  vals : List (ℚ × ℚ)
deriving DecidableEq

/-- `setVals`: store the breakpoint table (sorted by key, as supplied by the
`std::map`). -/
def setVals (m : List (ℚ × ℚ)) : DiscreteValueInterpolator :=
  ⟨m⟩

/-- Whether the mapped values of the table are strictly increasing — the
monotonicity that permits inversion. -/
def monotonicVals (l : List (ℚ × ℚ)) : Bool :=
  decide (l.Chain' (fun p q => p.2 < q.2))

/-- Modelled from the spec (see `DiscreteValueInterpolator`):
`invertIfMonotonic` swaps keys and values when the value sequence is
strictly monotonic and fails otherwise. -/
def invertIfMonotonic (d : DiscreteValueInterpolator) :
    Except AolErr DiscreteValueInterpolator :=
  if monotonicVals d.vals then .ok ⟨d.vals.map (fun p => (p.2, p.1))⟩
  else .error .preconditionViolation

/-- `PRNGForGivenDistr1D::init`: copy the pdf map, read the minimum key
`zval = pdf.begin()->first`, insert the anchor `pdf[zval - 1.0e-6] = 0`,
then `_dvi.setVals(pdf); _dvi.invertIfMonotonic();`.  (The source
dereferences `pdf.begin()` of the nonempty map of a constructed
distribution; we map the unreachable empty case to the precondition
failure.) -/
def PRNGinit (pdf : List (ℚ × ℚ)) : Except AolErr DiscreteValueInterpolator :=
  match pdf with
  | [] => .error .preconditionViolation
  | (zval, p) :: rest =>
    invertIfMonotonic (setVals (mapInsert (zval - 1 / 10 ^ 6) 0 ((zval, p) :: rest)))

/-- C9: constructing the inverse-CDF sampler from a distribution whose
cumulative table has minimum mapped value `v` (keys ascending, so `v` is the
head key) first inserts the synthetic anchor entry `v - 1e-6 ↦ 0` in front
of a copy of the table, and the interpolant is inverted only if the
resulting table is monotonic: monotonic tables yield the inverted
interpolant, non-monotonic tables make construction fail. -/
theorem PRNGinit_anchor (v p : ℚ) (rest : List (ℚ × ℚ))
    (hsorted : ((v, p) :: rest).Chain' (fun a b => a.1 < b.1)) :
    PRNGinit ((v, p) :: rest) =
      invertIfMonotonic (setVals ((v - 1 / 10 ^ 6, 0) :: (v, p) :: rest)) ∧
    (monotonicVals ((v - 1 / 10 ^ 6, 0) :: (v, p) :: rest) = true →
      PRNGinit ((v, p) :: rest) =
        .ok ⟨((v - 1 / 10 ^ 6, 0) :: (v, p) :: rest).map (fun q => (q.2, q.1))⟩) ∧
    (monotonicVals ((v - 1 / 10 ^ 6, 0) :: (v, p) :: rest) = false →
      PRNGinit ((v, p) :: rest) = .error .preconditionViolation) := by
  have hins : mapInsert (v - 1 / 10 ^ 6) 0 ((v, p) :: rest) =
      (v - 1 / 10 ^ 6, 0) :: (v, p) :: rest := by
    rw [mapInsert, if_pos (by linarith)]
  have hbase : PRNGinit ((v, p) :: rest) =
      invertIfMonotonic (setVals ((v - 1 / 10 ^ 6, 0) :: (v, p) :: rest)) := by
    rw [PRNGinit, hins]
  refine ⟨hbase, ?_, ?_⟩
  · intro hm
    rw [hbase]
    unfold invertIfMonotonic setVals
    rw [if_pos hm]
  · intro hm
    rw [hbase]
    unfold invertIfMonotonic setVals
    rw [if_neg (by simp only [hm]; simp)]

/-- Witness for C9 on the one-entry table `{1 ↦ 1}`: the anchor
`(1 - 1e-6, 0)` is prepended, the table is monotonic, and the inverted
interpolant is returned. -/
theorem PRNGinit_anchor_witness :
    PRNGinit [(1, 1)] = .ok ⟨[((0 : ℚ), 1 - 1 / 10 ^ 6), (1, 1)]⟩ := by
  have h := (PRNGinit_anchor 1 1 [] (by simp)).2.1
    (by norm_num [monotonicVals, List.chain'_cons])
  simpa using h

end Aol
